import Mathlib

/-!
# Verification of the `nicepick` logging core (`src/logging.rs`)

A shallow embedding of the logging subsystem of the repository:

* `Level` with its derived total order, `as_str` and `color_code`;
* the pure timestamp formatter `format_timestamp` (the code reads the system
  clock; we factor it as `formatTimestampAt : Int → String` over the clock
  reading, and `formatTimestampPure : Nat → String` over the non-negative
  elapsed-seconds value, exactly the arithmetic of the Rust function);
* the process-wide logger state (`MIN_LEVEL`, `LOG_CHANNEL_SENDER`,
  `SPAWN_WORKER_ONCE`, the bounded channel and the fallback stderr stream)
  as an explicit `LoggerState`, with `init`, `log_enabled`,
  `ensure_worker_started`, `get_sender`, and the `log!` macro body as state
  transitions; concurrent callers are modelled as an arbitrary interleaved
  trace of the public entry points, each `Once.call_once` body running
  atomically (the guarantee `std::sync::Once` provides).

All machine integers involved are Rust `u64`; on the inputs considered the
Rust arithmetic (division, modulo, checked-by-branch subtraction) never
overflows, so `Nat` models it faithfully.
-/

namespace Nicepick

/-- The `Level` enum of `logging.rs`, variants in declaration order. -/
inductive Level
  | Debug
  | Info
  | Okay
  | Warning
  | Fail
deriving DecidableEq, Repr

namespace Level

/-- Discriminant of a variant: the order `derive(PartialOrd, Ord)` uses. -/
def toNat : Level → Nat
  | .Debug => 0
  | .Info => 1
  | .Okay => 2
  | .Warning => 3
  | .Fail => 4

/-- The derived `<=` of `Level` (declaration order). -/
def le (a b : Level) : Bool := a.toNat ≤ b.toNat

/-- `Level::as_str`. -/
def as_str : Level → String
  | .Debug => "DBUG"
  | .Info => "INFO"
  | .Okay => "OKAY"
  | .Warning => "WARN"
  | .Fail => "FAIL"

/-- `Level::color_code`. -/
def color_code : Level → String
  | .Debug => "\x1b[35m"
  | .Info => "\x1b[34m"
  | .Okay => "\x1b[32m"
  | .Warning => "\x1b[33m"
  | .Fail => "\x1b[31m"

end Level

/-- `is_leap_year` of `logging.rs`. -/
def is_leap_year (year : Nat) : Bool :=
  (year % 4 == 0 && year % 100 != 0) || (year % 400 == 0)

/-- Days in a year under the code's leap rule (the `365`/`366` selection of
the year-walking loop). -/
def daysInYear (y : Nat) : Nat := if is_leap_year y then 366 else 365

/-- The body of the year-walking loop of `format_timestamp`, with an explicit
iteration budget `fuel`: starting at year `y` with `days` remaining, subtract
whole years until the remainder fits inside the current year. Each iteration
consumes at least 365 days, so a budget of `days + 1` iterations always
reaches the `break`; the fuel-exhausted branch is unreachable for every input
the wrapper `yearLoop` supplies (mirroring that the Rust `for y in 1970..`
always breaks long before its `u64` counter could be exhausted). -/
def yearLoopAux : Nat → Nat → Nat → Nat × Nat
  | 0, y, days => (y, days)
  | fuel + 1, y, days =>
    if days < daysInYear y then (y, days)
    else yearLoopAux fuel (y + 1) (days - daysInYear y)

/-- The year-walking loop of `format_timestamp`: from year `y` with `days`
days remaining, return the reached year and the days left inside it. -/
def yearLoop (y days : Nat) : Nat × Nat := yearLoopAux (days + 1) y days

/-- The `days_in_month` array of `format_timestamp` for a given year. -/
def days_in_month (year : Nat) : List Nat :=
  [31, if is_leap_year year then 29 else 28, 31, 30, 31, 30, 31, 31, 30, 31, 30, 31]

/-- The month-walking loop of `format_timestamp`: `m` is the 0-based index of
the current month; on break it yields `(m + 1, days_remaining + 1)`; if the
loop falls through (never happens for remainders below a year) `(month, day)`
keep their initial values `(1, 1)`. -/
def monthLoop (m days : Nat) : List Nat → Nat × Nat
  | [] => (1, 1)
  | d :: rest => if days < d then (m + 1, days + 1) else monthLoop (m + 1) (days - d) rest

/-- The date computation of `format_timestamp`: year, month and day from the
day count since 1970-01-01. -/
def dateOf (days_since_epoch : Nat) : Nat × Nat × Nat :=
  let yr := yearLoop 1970 days_since_epoch
  let md := monthLoop 0 yr.2 (days_in_month yr.1)
  (yr.1, md.1, md.2)

/-- Rust's `{:02}` formatting of a `u64`. -/
def pad2 (n : Nat) : String :=
  if n < 10 then "0" ++ toString n else toString n

/-- Rust's `{:04}` formatting of a `u64`. -/
def pad4 (n : Nat) : String :=
  if n < 10 then "000" ++ toString n
  else if n < 100 then "00" ++ toString n
  else if n < 1000 then "0" ++ toString n
  else toString n

/-- `format_timestamp` over the already-obtained non-negative elapsed seconds
`total_secs` (the value of `now.as_secs()` in the Rust code). -/
def formatTimestampPure (total_secs : Nat) : String :=
  let secs := total_secs % 60
  let mins := (total_secs / 60) % 60
  let hours := (total_secs / 3600) % 24
  let days_since_epoch := total_secs / 86400
  let ymd := dateOf days_since_epoch
  pad4 ymd.1 ++ "-" ++ pad2 ymd.2.1 ++ "-" ++ pad2 ymd.2.2 ++ " " ++
    pad2 hours ++ ":" ++ pad2 mins ++ ":" ++ pad2 secs

/-- `format_timestamp` over the raw clock reading, in signed seconds relative
to `UNIX_EPOCH`: `SystemTime::now().duration_since(UNIX_EPOCH)` errs exactly
when the clock is before the epoch, and `unwrap_or_default()` turns that into
the zero duration. -/
def formatTimestampAt (clock : Int) : String :=
  formatTimestampPure (if clock < 0 then 0 else clock.toNat)

/-! ## Reference (spec-side) calendar definitions

Used to state that the walking loops reproduce the proleptic Gregorian
calendar: a date's day number is obtained by *summation* (whole years, then
whole months, then the day offset), the converse of the code's subtraction
loops. Both sides share only the leap-year rule. -/

/-- Reference: total number of days in the `k` consecutive years
`y, y + 1, …, y + k - 1`, under the leap rule. -/
def yearSpan (y : Nat) : Nat → Nat
  | 0 => 0
  | k + 1 => daysInYear y + yearSpan (y + 1) k

/-- Reference: the day number since 1970-01-01 of the proleptic Gregorian
calendar date `y-m-d` (`m`, `d` 1-based): the days of all years before `y`,
plus the days of the months of `y` before `m`, plus `d - 1`. -/
def daysFromCivil (y m d : Nat) : Nat :=
  yearSpan 1970 (y - 1970) + ((days_in_month y).take (m - 1)).sum + (d - 1)

/-- Number of days in month `m` (1-based) of year `y`. -/
def daysInMonthOf (y m : Nat) : Nat := (days_in_month y).getD (m - 1) 0

/-! ## The process-wide logger state

The mutable globals of `logging.rs` (`MIN_LEVEL`, `LOG_CHANNEL_SENDER`,
`SPAWN_WORKER_ONCE`), the bounded channel contents, and the lines written
directly to stderr by the fallback paths, as one explicit state record.
`workers`/`channels` count how many worker threads/channels were ever
created, to state the at-most-one invariants. Concurrency is modelled as an
arbitrary interleaving (trace) of the entry points, each `Once.call_once`
body running atomically — exactly the mutual-exclusion guarantee
`std::sync::Once` provides. -/

/-- Model of `std::panic::Location`: file, line and column of a call site.
Its `Display` implementation renders as `file:line:column`. -/
structure SourceLoc where
  file : String
  line : Nat
  column : Nat
deriving DecidableEq

/-- Rust's `Display` for `std::panic::Location`: `file:line:column`. -/
def SourceLoc.render (l : SourceLoc) : String :=
  l.file ++ ":" ++ toString l.line ++ ":" ++ toString l.column

/-- The `LogMessage` envelope sent over the channel. -/
structure LogMessage where
  level : Level
  message : String
  location : SourceLoc
deriving DecidableEq

/-- The process-wide state touched by the logging entry points. -/
structure LoggerState where
  /-- `MIN_LEVEL : OnceLock<Level>`. -/
  minLevel : Option Level
  /-- whether `LOG_CHANNEL_SENDER : OnceLock<Sender<_>>` holds a sender. -/
  sender : Option Unit
  /-- whether `SPAWN_WORKER_ONCE` has run its closure. -/
  onceDone : Bool
  /-- how many channels were ever created. -/
  channels : Nat
  /-- how many worker threads were ever spawned. -/
  workers : Nat
  /-- the envelopes currently queued in the bounded channel. -/
  queue : List LogMessage
  /-- whether the channel's receiving end has been dropped. -/
  closed : Bool
  /-- lines written directly to stderr by the fallback paths. -/
  stderr : List String
deriving DecidableEq

/-- The state at process start: nothing initialized. -/
def initialState : LoggerState :=
  { minLevel := none, sender := none, onceDone := false, channels := 0,
    workers := 0, queue := [], closed := false, stderr := [] }

/-- Capacity of the bounded channel: `mpsc::channel::<LogMessage>(1024)`. -/
def channelCapacity : Nat := 1024

/-- The fallback line of `log!` when `try_send` fails. -/
def droppedLine : String := "Warning: Log message dropped (channel full or closed)"

/-- The fallback line of `ensure_worker_started` when the sender slot is
already occupied. -/
def alreadyInitLine : String := "Logger worker already initialized."

/-- The fallback line of `log!` when no sender is available. -/
def initFailedLine : String := "Logging system failed to initialize."

/-- `ensure_worker_started`: under `SPAWN_WORKER_ONCE.call_once`, create the
bounded channel, store the sender, and spawn the worker thread that owns the
receiver; if the sender slot is somehow occupied, print a warning and spawn
nothing. -/
def ensure_worker_started (s : LoggerState) : LoggerState :=
  if s.onceDone then s
  else
    let s1 := { s with onceDone := true, channels := s.channels + 1 }
    match s1.sender with
    | some _ => { s1 with stderr := s1.stderr ++ [alreadyInitLine] }
    | none => { s1 with sender := some (), workers := s1.workers + 1 }

/-- `init`: `let _ = MIN_LEVEL.set(level)` (a `OnceLock` keeps the first
value), then `ensure_worker_started()`. -/
def init (level : Level) (s : LoggerState) : LoggerState :=
  ensure_worker_started { s with minLevel := some (s.minLevel.getD level) }

/-- `log_enabled`: `level >= *MIN_LEVEL.get().unwrap_or(&Level::Info)`. -/
def log_enabled (s : LoggerState) (level : Level) : Bool :=
  (s.minLevel.getD Level.Info).le level

/-- `get_sender`: ensure the worker is started, then read the sender slot. -/
def get_sender (s : LoggerState) : LoggerState × Option Unit :=
  let s1 := ensure_worker_started s
  (s1, s1.sender)

/-- The body of the `log!` macro: check `log_enabled` first; obtain the
sender (starting the worker if needed); `try_send` the envelope, which
succeeds exactly when the channel is neither closed nor full; on failure
print the one-line drop notice; if no sender is available print the
initialization-failure notice. The function is total and returns the new
state in every case: no error reaches the caller. -/
def logMacro (level : Level) (msg : String) (loc : SourceLoc) (s : LoggerState) :
    LoggerState :=
  if log_enabled s level then
    let s1 := ensure_worker_started s
    match s1.sender with
    | some _ =>
      if !s1.closed && s1.queue.length < channelCapacity then
        { s1 with queue := s1.queue ++ [⟨level, msg, loc⟩] }
      else
        { s1 with stderr := s1.stderr ++ [droppedLine] }
    | none => { s1 with stderr := s1.stderr ++ [initFailedLine] }
  else s

/-- The line the Worker prints for one dequeued envelope `e`, with `ts` the
timestamp string obtained at dequeue time:
`eprintln!("[{}] - {}[{}]{} - [{}]\t| {}", …)`. -/
def workerLine (ts : String) (e : LogMessage) : String :=
  "[" ++ ts ++ "] - " ++ e.level.color_code ++ "[" ++ e.level.as_str ++ "]" ++
    "\x1b[0m" ++ " - [" ++ e.location.render ++ "]" ++ "\t| " ++ e.message

/-- One atomic step of one caller thread: the public entry points that touch
the globals (`log_enabled` is read-only and does not change the state). -/
inductive Op
  | opInit (l : Level)
  | opLog (l : Level) (msg : String) (loc : SourceLoc)
  | opGetSender
  | opEnsure

/-- Effect of one step on the logger state. -/
def step (s : LoggerState) : Op → LoggerState
  | .opInit l => init l s
  | .opLog l msg loc => logMacro l msg loc s
  | .opGetSender => (get_sender s).1
  | .opEnsure => ensure_worker_started s

/-- Run an arbitrary interleaved trace of entry-point calls. -/
def run (s : LoggerState) (ops : List Op) : LoggerState := ops.foldl step s

/-- Reachability invariant of the logger globals: the sender slot is filled
exactly when the one-time guard has run, worker/channel counts follow the
guard, and the two "impossible branch" fallback lines never reach stderr. -/
def Good (s : LoggerState) : Prop :=
  (s.onceDone = true → s.sender = some () ∧ s.workers = 1 ∧ s.channels = 1) ∧
  (s.onceDone = false → s.sender = none ∧ s.workers = 0 ∧ s.channels = 0) ∧
  alreadyInitLine ∉ s.stderr ∧ initFailedLine ∉ s.stderr

/-- A concrete started state whose bounded queue holds exactly 1024
envelopes (the channel is full). -/
def fullQueueState : LoggerState :=
  { initialState with
    onceDone := true
    sender := (some ())
    workers := 1
    channels := 1
    queue := List.replicate 1024 ⟨Level.Info, "m", ⟨"f", 1, 1⟩⟩ }

/-! ## Calendar lemmas -/

theorem daysInYear_ge (y : Nat) : 365 ≤ daysInYear y := by
  unfold daysInYear; split <;> omega

theorem length_days_in_month (y : Nat) : (days_in_month y).length = 12 := rfl

theorem sum_days_in_month (y : Nat) : (days_in_month y).sum = daysInYear y := by
  cases h : is_leap_year y <;> simp [days_in_month, daysInYear, h]

/-- Started on the day number of 1 January of year `y + k` (relative to
1 January of year `y`) plus an offset `r` inside that year, the year loop
stops at year `y + k` with remainder `r`, for any sufficient fuel. -/
theorem yearLoopAux_exact :
    ∀ (k y r fuel : Nat), r < daysInYear (y + k) → yearSpan y k + r < fuel →
      yearLoopAux fuel y (yearSpan y k + r) = (y + k, r) := by
  intro k
  induction k with
  | zero =>
    intro y r fuel hr hf
    simp only [yearSpan, Nat.zero_add, Nat.add_zero] at hr hf ⊢
    obtain ⟨f, rfl⟩ : ∃ f, fuel = f + 1 := ⟨fuel - 1, by omega⟩
    simp [yearLoopAux, hr]
  | succ k ih =>
    intro y r fuel hr hf
    have hd := daysInYear_ge y
    simp only [yearSpan] at hf ⊢
    obtain ⟨f, rfl⟩ : ∃ f, fuel = f + 1 := ⟨fuel - 1, by omega⟩
    rw [show daysInYear y + yearSpan (y + 1) k + r =
      daysInYear y + (yearSpan (y + 1) k + r) from by omega]
    simp only [yearLoopAux]
    rw [if_neg (by omega)]
    rw [show daysInYear y + (yearSpan (y + 1) k + r) - daysInYear y =
      yearSpan (y + 1) k + r from by omega]
    have hr' : r < daysInYear (y + 1 + k) := by
      rw [show y + 1 + k = y + (k + 1) from by omega]; exact hr
    rw [ih (y + 1) r f hr' (by omega)]
    rw [show y + 1 + k = y + (k + 1) from by omega]

/-- The year loop at the entry day number of year `y` plus `r < daysInYear y`
stops at `(y, r)`. -/
theorem yearLoop_exact (y r : Nat) (hy : 1970 ≤ y) (hr : r < daysInYear y) :
    yearLoop 1970 (yearSpan 1970 (y - 1970) + r) = (y, r) := by
  have h1 : 1970 + (y - 1970) = y := by omega
  have h := yearLoopAux_exact (y - 1970) 1970 r (yearSpan 1970 (y - 1970) + r + 1)
    (by rw [h1]; exact hr) (by omega)
  rw [h1] at h
  exact h

/-- The year loop always stops with a remainder inside the reached year, and
the reached year moves forward by at most one year per remaining day. -/
theorem yearLoopAux_spec :
    ∀ (fuel days y : Nat), days < fuel →
      (yearLoopAux fuel y days).2 < daysInYear (yearLoopAux fuel y days).1 ∧
      y ≤ (yearLoopAux fuel y days).1 ∧
      (yearLoopAux fuel y days).1 ≤ y + days := by
  intro fuel
  induction fuel with
  | zero => intro days y h; omega
  | succ f ih =>
    intro days y h
    by_cases hc : days < daysInYear y
    · simp [yearLoopAux, hc]
    · have hd := daysInYear_ge y
      obtain ⟨ha, hb, hcc⟩ := ih (days - daysInYear y) (y + 1) (by omega)
      simp only [yearLoopAux, if_neg hc]
      exact ⟨ha, by omega, by omega⟩

theorem yearLoop_spec (days : Nat) :
    (yearLoop 1970 days).2 < daysInYear (yearLoop 1970 days).1 ∧
    1970 ≤ (yearLoop 1970 days).1 ∧ (yearLoop 1970 days).1 ≤ 1970 + days :=
  yearLoopAux_spec (days + 1) days 1970 (by omega)

/-- The month loop skips over a fully consumed prefix of months. -/
theorem monthLoop_append (L1 : List Nat) :
    ∀ (L2 : List Nat) (m q : Nat),
      monthLoop m (L1.sum + q) (L1 ++ L2) = monthLoop (m + L1.length) q L2 := by
  induction L1 with
  | nil => intro L2 m q; simp [monthLoop]
  | cons c rest ih =>
    intro L2 m q
    simp only [List.sum_cons, List.cons_append, List.length_cons]
    simp only [monthLoop]
    rw [if_neg (by omega)]
    rw [show c + rest.sum + q - c = rest.sum + q from by omega]
    rw [ih L2 (m + 1) q]
    rw [show m + 1 + rest.length = m + (rest.length + 1) from by omega]

theorem monthLoop_take (L : List Nat) (k q m : Nat) (hk : k ≤ L.length) :
    monthLoop m ((L.take k).sum + q) L = monthLoop (m + k) q (L.drop k) := by
  have h := monthLoop_append (L.take k) (L.drop k) m q
  rw [List.take_append_drop] at h
  rw [h, List.length_take, Nat.min_eq_left hk]

/-- On the in-year offset of a valid Gregorian month/day, the month loop
stops exactly at that month and day. -/
theorem monthLoop_exact (y m d : Nat) (hm1 : 1 ≤ m) (hm2 : m ≤ 12)
    (hd1 : 1 ≤ d) (hd2 : d ≤ daysInMonthOf y m) :
    monthLoop 0 (((days_in_month y).take (m - 1)).sum + (d - 1))
      (days_in_month y) = (m, d) := by
  have hlen : (days_in_month y).length = 12 := rfl
  have hm' : m - 1 < (days_in_month y).length := by omega
  rw [monthLoop_take _ (m - 1) (d - 1) 0 (by omega)]
  rw [List.drop_eq_getElem_cons hm']
  have hmd : daysInMonthOf y m = (days_in_month y)[m - 1] := by
    unfold daysInMonthOf; exact List.getD_eq_getElem _ _ hm'
  have hd' : d - 1 < (days_in_month y)[m - 1] := by omega
  simp only [monthLoop]
  rw [if_pos hd']
  simp only [Prod.mk.injEq]
  omega

/-- When the remaining days fit inside the month list, the month loop stops
at a month index inside the list with a day bounded by that month's length. -/
theorem monthLoop_bounds :
    ∀ (L : List Nat) (m days : Nat), days < L.sum →
      ∃ i, i < L.length ∧ (monthLoop m days L).1 = m + 1 + i ∧
        1 ≤ (monthLoop m days L).2 ∧ (monthLoop m days L).2 ≤ L.getD i 0 := by
  intro L
  induction L with
  | nil => intro m days h; simp [List.sum_nil] at h
  | cons c rest ih =>
    intro m days h
    by_cases hc : days < c
    · refine ⟨0, by simp, ?_, ?_, ?_⟩
      · simp [monthLoop, hc]
      · simp only [monthLoop, if_pos hc]
        omega
      · simp only [monthLoop, if_pos hc, List.getD_cons_zero]
        omega
    · simp only [List.sum_cons] at h
      obtain ⟨i, hi, h1, h2, h3⟩ := ih (m + 1) (days - c) (by omega)
      refine ⟨i + 1, by simp [hi], ?_, ?_, ?_⟩
      · simp only [monthLoop, if_neg hc]; omega
      · simp only [monthLoop, if_neg hc]; exact h2
      · simp only [monthLoop, if_neg hc]; simpa using h3

/-- The in-year offset of a valid month/day is below the year's length. -/
theorem rem_lt_daysInYear (y m d : Nat) (hm1 : 1 ≤ m) (hm2 : m ≤ 12)
    (hd1 : 1 ≤ d) (hd2 : d ≤ daysInMonthOf y m) :
    ((days_in_month y).take (m - 1)).sum + (d - 1) < daysInYear y := by
  have hlen : (days_in_month y).length = 12 := rfl
  have hm' : m - 1 < (days_in_month y).length := by omega
  have hsum : (days_in_month y).sum = daysInYear y := sum_days_in_month y
  have hsplit : ((days_in_month y).take (m - 1)).sum +
      ((days_in_month y).drop (m - 1)).sum = daysInYear y := by
    rw [← List.sum_append, List.take_append_drop, hsum]
  have hdrop : ((days_in_month y).drop (m - 1)).sum =
      (days_in_month y)[m - 1] + ((days_in_month y).drop m).sum := by
    rw [List.drop_eq_getElem_cons hm', List.sum_cons,
      show m - 1 + 1 = m from by omega]
  have hmd : daysInMonthOf y m = (days_in_month y)[m - 1] := by
    unfold daysInMonthOf; exact List.getD_eq_getElem _ _ hm'
  omega

/-- The walking date computation inverts the reference day-number map on
every valid proleptic Gregorian date from 1970 on. -/
theorem dateOf_daysFromCivil (y m d : Nat) (hy : 1970 ≤ y) (hm1 : 1 ≤ m)
    (hm2 : m ≤ 12) (hd1 : 1 ≤ d) (hd2 : d ≤ daysInMonthOf y m) :
    dateOf (daysFromCivil y m d) = (y, m, d) := by
  have hr := rem_lt_daysInYear y m d hm1 hm2 hd1 hd2
  have hD : daysFromCivil y m d = yearSpan 1970 (y - 1970) +
      (((days_in_month y).take (m - 1)).sum + (d - 1)) := by
    unfold daysFromCivil; omega
  have h1 : yearLoop 1970 (daysFromCivil y m d) =
      (y, ((days_in_month y).take (m - 1)).sum + (d - 1)) := by
    rw [hD]; exact yearLoop_exact y _ hy hr
  simp only [dateOf]
  rw [h1, monthLoop_exact y m d hm1 hm2 hd1 hd2]

theorem timeParts (D hh mi ss : Nat) (hh24 : hh < 24) (mi60 : mi < 60)
    (ss60 : ss < 60) :
    (86400 * D + 3600 * hh + 60 * mi + ss) % 60 = ss ∧
    ((86400 * D + 3600 * hh + 60 * mi + ss) / 60) % 60 = mi ∧
    ((86400 * D + 3600 * hh + 60 * mi + ss) / 3600) % 24 = hh ∧
    (86400 * D + 3600 * hh + 60 * mi + ss) / 86400 = D := by
  omega

/-- C1: for every non-negative epoch-seconds input, the timestamp formatter
produces the proleptic Gregorian calendar date and UTC time of that instant
in the form `YYYY-MM-DD HH:MM:SS`, under the leap rule `(y % 4 = 0 ∧
y % 100 ≠ 0) ∨ y % 400 = 0` (every non-negative instant is uniquely
`86400·daysFromCivil y m d + 3600·hh + 60·mi + ss` for a valid Gregorian
date/time, and the formatter renders exactly that date and time); in
particular 2024-02-29 00:00:00 (epoch 1709164800) formats with day 29, one
day after 2023-02-28 00:00:00 formats as 2023-03-01, and epoch 0 formats as
1970-01-01 00:00:00. -/
theorem C1_format_timestamp_gregorian :
    (∀ y m d hh mi ss : Nat, 1970 ≤ y → 1 ≤ m → m ≤ 12 → 1 ≤ d →
      d ≤ daysInMonthOf y m → hh < 24 → mi < 60 → ss < 60 →
      formatTimestampPure (86400 * daysFromCivil y m d +
          3600 * hh + 60 * mi + ss) =
        pad4 y ++ "-" ++ pad2 m ++ "-" ++ pad2 d ++ " " ++
          pad2 hh ++ ":" ++ pad2 mi ++ ":" ++ pad2 ss) ∧
    formatTimestampPure 1709164800 = "2024-02-29 00:00:00" ∧
    formatTimestampPure (1677542400 + 86400) = "2023-03-01 00:00:00" ∧
    formatTimestampPure 0 = "1970-01-01 00:00:00" := by
  refine ⟨?_, by decide, by decide, by decide⟩
  intro y m d hh mi ss hy hm1 hm2 hd1 hd2 hh24 hmi hss
  obtain ⟨e1, e2, e3, e4⟩ := timeParts (daysFromCivil y m d) hh mi ss hh24 hmi hss
  simp only [formatTimestampPure]
  rw [e1, e2, e3, e4, dateOf_daysFromCivil y m d hy hm1 hm2 hd1 hd2]

theorem C1_format_timestamp_gregorian_witness :
    (1970 ≤ 2024 ∧ 1 ≤ 2 ∧ 2 ≤ 12 ∧ 1 ≤ 29 ∧ 29 ≤ daysInMonthOf 2024 2 ∧
      12 < 24 ∧ 34 < 60 ∧ 56 < 60) ∧
    formatTimestampPure (86400 * daysFromCivil 2024 2 29 +
        3600 * 12 + 60 * 34 + 56) =
      pad4 2024 ++ "-" ++ pad2 2 ++ "-" ++ pad2 29 ++ " " ++
        pad2 12 ++ ":" ++ pad2 34 ++ ":" ++ pad2 56 :=
  ⟨by decide, C1_format_timestamp_gregorian.1 2024 2 29 12 34 56 (by decide)
    (by decide) (by decide) (by decide) (by decide) (by decide) (by decide)
    (by decide)⟩

/-- C7: a clock reading before the reference epoch is treated as zero elapsed
time — the formatter returns the epoch instant's string instead of failing. -/
theorem C7_pre_epoch_clock_formats_epoch :
    ∀ t : Int, t < 0 →
      formatTimestampAt t = formatTimestampPure 0 ∧
      formatTimestampAt t = "1970-01-01 00:00:00" := by
  intro t ht
  have h : formatTimestampAt t = formatTimestampPure 0 := by
    unfold formatTimestampAt; rw [if_pos ht]
  exact ⟨h, by rw [h]; decide⟩

theorem C7_pre_epoch_clock_formats_epoch_witness :
    (-5 : Int) < 0 ∧
    (formatTimestampAt (-5) = formatTimestampPure 0 ∧
      formatTimestampAt (-5) = "1970-01-01 00:00:00") :=
  ⟨by decide, C7_pre_epoch_clock_formats_epoch (-5) (by decide)⟩

/-- C10: for every epoch-seconds input in the unsigned 64-bit range, the
year- and month-walking computations yield well-formed components: month in
`[1, 12]`, day in `[1, daysInMonthOf year month]`, hours/minutes/seconds
below 24/60/60; the year advances by at most one per elapsed day (so the
Rust `u64` loop counter stays far below its range and both loops reach their
`break`; in this embedding the loops are total functions). -/
theorem C10_components_well_formed :
    ∀ n : Nat, n < 2 ^ 64 →
      1 ≤ (dateOf (n / 86400)).2.1 ∧ (dateOf (n / 86400)).2.1 ≤ 12 ∧
      1 ≤ (dateOf (n / 86400)).2.2 ∧
      (dateOf (n / 86400)).2.2 ≤
        daysInMonthOf (dateOf (n / 86400)).1 (dateOf (n / 86400)).2.1 ∧
      1970 ≤ (dateOf (n / 86400)).1 ∧
      (dateOf (n / 86400)).1 ≤ 1970 + n / 86400 ∧
      (n / 3600) % 24 < 24 ∧ (n / 60) % 60 < 60 ∧ n % 60 < 60 := by
  intro n hn
  obtain ⟨h1, h2, h3⟩ := yearLoop_spec (n / 86400)
  have hrem : (yearLoop 1970 (n / 86400)).2 <
      (days_in_month (yearLoop 1970 (n / 86400)).1).sum := by
    rw [sum_days_in_month]; exact h1
  obtain ⟨i, hi, hm, hd1, hd2⟩ := monthLoop_bounds
    (days_in_month (yearLoop 1970 (n / 86400)).1) 0
    (yearLoop 1970 (n / 86400)).2 hrem
  have hlen : (days_in_month (yearLoop 1970 (n / 86400)).1).length = 12 :=
    length_days_in_month _
  simp only [dateOf]
  refine ⟨by omega, by omega, hd1, ?_, h2, h3, by omega, by omega, by omega⟩
  have hmd : daysInMonthOf (yearLoop 1970 (n / 86400)).1
      ((monthLoop 0 (yearLoop 1970 (n / 86400)).2
        (days_in_month (yearLoop 1970 (n / 86400)).1)).1) =
      (days_in_month (yearLoop 1970 (n / 86400)).1).getD i 0 := by
    unfold daysInMonthOf
    rw [hm, show 0 + 1 + i - 1 = i from by omega]
  rw [hmd]
  exact hd2

/-! ## Logger state lemmas -/

theorem ensure_onceDone (s : LoggerState) :
    (ensure_worker_started s).onceDone = true := by
  unfold ensure_worker_started
  cases hb : s.onceDone
  · cases hs : s.sender <;> simp [hb, hs]
  · simp [hb]

theorem ensure_minLevel (s : LoggerState) :
    (ensure_worker_started s).minLevel = s.minLevel := by
  unfold ensure_worker_started
  cases hb : s.onceDone
  · cases hs : s.sender <;> simp [hb, hs]
  · simp [hb]

theorem good_initial : Good initialState := by
  refine ⟨by simp [initialState], by simp [initialState], ?_, ?_⟩ <;>
    simp [initialState]

theorem good_ensure (s : LoggerState) (h : Good s) :
    Good (ensure_worker_started s) := by
  obtain ⟨ht, hf, h4, h5⟩ := h
  unfold ensure_worker_started
  cases hb : s.onceDone
  · obtain ⟨hs, hw, hc⟩ := hf hb
    simp only [hb, Bool.false_eq_true, if_false, hs]
    exact ⟨fun _ => ⟨rfl, by simp [hw], by simp [hc]⟩, by simp, h4, h5⟩
  · simpa [hb] using ⟨ht, hf, h4, h5⟩

theorem good_setMin (s : LoggerState) (x : Option Level) (h : Good s) :
    Good { s with minLevel := x } := h

theorem good_logMacro (l : Level) (msg : String) (loc : SourceLoc)
    (s : LoggerState) (h : Good s) : Good (logMacro l msg loc s) := by
  unfold logMacro
  cases he : log_enabled s l
  · simpa [he] using h
  · simp only [he, if_true]
    have h1 := good_ensure s h
    have ho := ensure_onceDone s
    obtain ⟨ht, hf, h4, h5⟩ := h1
    obtain ⟨hs, hw, hc⟩ := ht ho
    simp only [hs]
    split
    · exact ⟨fun _ => ⟨rfl, hw, hc⟩, by simp [ho], h4, h5⟩
    · refine ⟨fun _ => ⟨rfl, hw, hc⟩, by simp [ho], ?_, ?_⟩
      · intro hmem
        rcases List.mem_append.mp hmem with hh | hh
        · exact h4 hh
        · exact absurd (List.mem_singleton.mp hh) (by decide)
      · intro hmem
        rcases List.mem_append.mp hmem with hh | hh
        · exact h5 hh
        · exact absurd (List.mem_singleton.mp hh) (by decide)

theorem good_step (s : LoggerState) (o : Op) (h : Good s) : Good (step s o) := by
  cases o with
  | opInit l => exact good_ensure _ (good_setMin s _ h)
  | opLog l msg loc => exact good_logMacro l msg loc s h
  | opGetSender => exact good_ensure s h
  | opEnsure => exact good_ensure s h

theorem good_run (ops : List Op) :
    ∀ s : LoggerState, Good s → Good (run s ops) := by
  induction ops with
  | nil => intro s h; exact h
  | cons o rest ih => intro s h; exact ih (step s o) (good_step s o h)

theorem logMacro_minLevel (l : Level) (msg : String) (loc : SourceLoc)
    (s : LoggerState) : (logMacro l msg loc s).minLevel = s.minLevel := by
  unfold logMacro
  cases he : log_enabled s l
  · simp
  · simp only [if_true]
    cases hs : (ensure_worker_started s).sender
    · simpa using ensure_minLevel s
    · cases hfull : (!(ensure_worker_started s).closed &&
          decide ((ensure_worker_started s).queue.length < channelCapacity)) <;>
        simpa using ensure_minLevel s

theorem step_minLevel_some (s : LoggerState) (o : Op) (x : Level)
    (h : s.minLevel = some x) : (step s o).minLevel = some x := by
  cases o with
  | opInit l => show (ensure_worker_started _).minLevel = _; rw [ensure_minLevel]; simp [h]
  | opLog l msg loc => rw [show step s (.opLog l msg loc) = logMacro l msg loc s from rfl, logMacro_minLevel]; exact h
  | opGetSender => show (ensure_worker_started _).minLevel = _; rw [ensure_minLevel]; exact h
  | opEnsure => show (ensure_worker_started _).minLevel = _; rw [ensure_minLevel]; exact h

theorem run_minLevel_some (ops : List Op) :
    ∀ (s : LoggerState) (x : Level), s.minLevel = some x →
      (run s ops).minLevel = some x := by
  induction ops with
  | nil => intro s x h; exact h
  | cons o rest ih => intro s x h; exact ih (step s o) x (step_minLevel_some s o x h)

theorem C10_components_well_formed_witness :
    1709164800 < 2 ^ 64 ∧
    (1 ≤ (dateOf (1709164800 / 86400)).2.1 ∧
      (dateOf (1709164800 / 86400)).2.1 ≤ 12 ∧
      1 ≤ (dateOf (1709164800 / 86400)).2.2 ∧
      (dateOf (1709164800 / 86400)).2.2 ≤
        daysInMonthOf (dateOf (1709164800 / 86400)).1
          (dateOf (1709164800 / 86400)).2.1 ∧
      1970 ≤ (dateOf (1709164800 / 86400)).1 ∧
      (dateOf (1709164800 / 86400)).1 ≤ 1970 + 1709164800 / 86400 ∧
      (1709164800 / 3600) % 24 < 24 ∧ (1709164800 / 60) % 60 < 60 ∧
      1709164800 % 60 < 60) :=
  ⟨by decide, C10_components_well_formed 1709164800 (by decide)⟩

/-- C2 as stated is false at `L1 = L2`: `log_enabled` compares with `>=`, so
with configured minimum `Info` the query `is_enabled(Info)` is true, not
false. -/
theorem C2_counterexample :
    ¬ (∀ l1 l2 : Level, l1.le l2 = true →
        ∀ s : LoggerState, s.minLevel.getD Level.Info = l2 →
          log_enabled s l1 = false ∧ log_enabled s l2 = true) := by
  intro h
  have hinst := h Level.Info Level.Info (by decide)
    { initialState with minLevel := some Level.Info } (by decide)
  exact absurd hinst.1 (by decide)

/-- C2 (amended: `L1 ≤ L2` tightened to `L1 < L2`, which the counterexample
at `L1 = L2` forces): for levels L1 strictly below L2 in the order
Debug < Info < Okay < Warning < Fail, if the configured minimum is L2 then
`is_enabled(L1)` is false and `is_enabled(L2)` is true; the configured
minimum is the level stored by the first `init` call, and `Info` when
`MIN_LEVEL` was never set. -/
theorem C2_level_filtering :
    (∀ (l1 l2 : Level) (s : LoggerState), l1.toNat < l2.toNat →
      s.minLevel.getD Level.Info = l2 →
      log_enabled s l1 = false ∧ log_enabled s l2 = true) ∧
    (∀ l : Level, (init l initialState).minLevel = some l) ∧
    initialState.minLevel = none := by
  refine ⟨?_, ?_, rfl⟩
  · intro l1 l2 s h12 hmin
    unfold log_enabled Level.le
    rw [hmin]
    constructor
    · simp only [decide_eq_false_iff_not]
      omega
    · simp
  · intro l
    show (ensure_worker_started _).minLevel = some l
    rw [ensure_minLevel]
    rfl

theorem C2_level_filtering_witness :
    (Level.Debug.toNat < Level.Fail.toNat ∧
      ({ initialState with minLevel := some Level.Fail } :
        LoggerState).minLevel.getD Level.Info = Level.Fail) ∧
    (log_enabled { initialState with minLevel := some Level.Fail }
        Level.Debug = false ∧
      log_enabled { initialState with minLevel := some Level.Fail }
        Level.Fail = true) :=
  ⟨by decide, C2_level_filtering.1 Level.Debug Level.Fail
    { initialState with minLevel := some Level.Fail } (by decide) (by decide)⟩

/-- C3: when the emission path passes the level check and `try_send` fails —
the bounded queue already holds `channelCapacity = 1024` envelopes, or the
channel is closed — the envelope is dropped (the queue is unchanged) and
exactly one fallback line is appended to the error stream; both failure
causes produce the identical result, and the transition is a total function
returning the new state, so nothing blocks and no error reaches the
caller. -/
theorem C3_drop_on_full_or_closed :
    ∀ (s : LoggerState) (l : Level) (msg : String) (loc : SourceLoc),
      log_enabled s l = true → s.onceDone = true → s.sender = some () →
      (channelCapacity ≤ s.queue.length ∨ s.closed = true) →
      logMacro l msg loc s = { s with stderr := s.stderr ++ [droppedLine] } := by
  intro s l msg loc he ho hs hfail
  unfold logMacro
  have hens : ensure_worker_started s = s := by
    unfold ensure_worker_started
    simp [ho]
  have hcond : (!s.closed && decide (s.queue.length < channelCapacity)) = false := by
    rcases hfail with hfull | hclosed
    · simp [decide_eq_false_iff_not]
      omega
    · simp [hclosed]
  simp only [he, if_true, hens, hs, hcond, Bool.false_eq_true, if_false]

set_option maxRecDepth 8192 in
theorem C3_drop_on_full_or_closed_witness :
    (log_enabled fullQueueState Level.Info = true ∧
      fullQueueState.onceDone = true ∧
      fullQueueState.sender = some () ∧
      channelCapacity ≤ fullQueueState.queue.length) ∧
    logMacro Level.Info "x" ⟨"main.rs", 7, 9⟩ fullQueueState =
      { fullQueueState with stderr := fullQueueState.stderr ++ [droppedLine] } :=
  ⟨⟨rfl, rfl, rfl, by decide⟩,
    C3_drop_on_full_or_closed fullQueueState Level.Info "x" ⟨"main.rs", 7, 9⟩
      rfl rfl rfl (Or.inl (by decide))⟩

/-- C4 as stated is false: the Worker prints the call-site location through
`Location`'s `Display`, which renders `file:line:column`, not `file:line`;
for an envelope located at file "main.rs", line 10, column 5, the printed
line carries "[main.rs:10:5]" and differs from the claimed form with
location part "main.rs:10". -/
theorem C4_counterexample :
    workerLine "1970-01-01 00:00:00"
        ⟨Level.Info, "hello", ⟨"main.rs", 10, 5⟩⟩ ≠
      "[" ++ "1970-01-01 00:00:00" ++ "] - " ++ Level.Info.color_code ++
        "[" ++ Level.Info.as_str ++ "]" ++ "\x1b[0m" ++ " - [" ++
        "main.rs" ++ ":" ++ toString (10 : Nat) ++ "]" ++ "\t| " ++
        "hello" := by decide

/-- C4 (amended: the location part is `<file>:<line>:<column>`, as the
counterexample forces): every line the Worker writes for a dequeued envelope
has exactly the form
`[<timestamp>] - <color>[<LEVEL>]<reset> - [<file>:<line>:<column>]\t| <message>`,
where `<LEVEL>` is the envelope level's fixed 4-character severity tag. -/
theorem C4_worker_line_format :
    ∀ (ts : String) (e : LogMessage),
      workerLine ts e =
        "[" ++ ts ++ "] - " ++ e.level.color_code ++ "[" ++ e.level.as_str ++
          "]" ++ "\x1b[0m" ++ " - [" ++ e.location.file ++ ":" ++
          toString e.location.line ++ ":" ++ toString e.location.column ++
          "]" ++ "\t| " ++ e.message ∧
      (e.level.as_str).length = 4 := by
  intro ts e
  obtain ⟨lv, m, f, ln, col⟩ := e
  constructor
  · simp [workerLine, SourceLoc.render, String.append_assoc]
  · cases lv <;> rfl

theorem setMin_self (s : LoggerState) (x : Option Level)
    (h : s.minLevel = x) : { s with minLevel := x } = s := by
  cases s
  simp_all

/-- A second `init` call on an already-initialized state is the identity. -/
theorem init_second_noop (s : LoggerState) (l1 l2 : Level)
    (hmin : s.minLevel = some l1) (honce : s.onceDone = true) :
    init l2 s = s := by
  unfold init
  have hg : s.minLevel.getD l2 = l1 := by rw [hmin]; rfl
  rw [hg, setMin_self s (some l1) hmin]
  unfold ensure_worker_started
  simp [honce]

/-- C5: the configured minimum level is single-assignment: starting from the
initial state, calling `init l1` then `init l2` stores `l1`, and the second
call is silently a no-op (it leaves the whole state unchanged); after any
further trace of entry-point calls the stored minimum is still `l1`, and
every `is_enabled` query compares against `l1`. -/
theorem C5_first_init_wins :
    ∀ (l1 l2 : Level) (ops : List Op),
      step (step initialState (.opInit l1)) (.opInit l2) =
        step initialState (.opInit l1) ∧
      (run (step (step initialState (.opInit l1)) (.opInit l2)) ops).minLevel =
        some l1 ∧
      ∀ l : Level,
        log_enabled
          (run (step (step initialState (.opInit l1)) (.opInit l2)) ops) l =
          l1.le l := by
  intro l1 l2 ops
  have h1 : (step initialState (.opInit l1)).minLevel = some l1 := by
    show (ensure_worker_started _).minLevel = some l1
    rw [ensure_minLevel]
    rfl
  have honce : (step initialState (.opInit l1)).onceDone = true :=
    ensure_onceDone _
  have hnoop : step (step initialState (.opInit l1)) (.opInit l2) =
      step initialState (.opInit l1) :=
    init_second_noop _ l1 l2 h1 honce
  have h2 : (step (step initialState (.opInit l1)) (.opInit l2)).minLevel =
      some l1 := step_minLevel_some _ _ l1 h1
  have h3 := run_minLevel_some ops _ l1 h2
  refine ⟨hnoop, h3, fun l => ?_⟩
  unfold log_enabled
  rw [h3]
  rfl

/-- C6: when the configured minimum is `Fail` and the emitted level is any
of the four lower levels, the `log!` body is the identity on the logger
state: nothing is sent to the channel, no worker is started, and zero lines
are written — the emission stops at the level comparison. -/
theorem C6_disabled_emit_is_noop :
    ∀ (s : LoggerState) (l : Level) (msg : String) (loc : SourceLoc),
      s.minLevel = some Level.Fail → l ≠ Level.Fail →
      logMacro l msg loc s = s := by
  intro s l msg loc hmin hl
  have he : log_enabled s l = false := by
    unfold log_enabled
    rw [hmin]
    cases l
    · decide
    · decide
    · decide
    · decide
    · exact absurd rfl hl
  unfold logMacro
  rw [he]
  simp

theorem C6_disabled_emit_is_noop_witness :
    (({ initialState with minLevel := some Level.Fail } :
        LoggerState).minLevel = some Level.Fail ∧
      Level.Debug ≠ Level.Fail) ∧
    logMacro Level.Debug "x" ⟨"main.rs", 3, 4⟩
        { initialState with minLevel := some Level.Fail } =
      { initialState with minLevel := some Level.Fail } :=
  ⟨⟨rfl, by decide⟩,
    C6_disabled_emit_is_noop _ Level.Debug "x" ⟨"main.rs", 3, 4⟩ rfl (by decide)⟩

/-- C8: along every interleaved trace of entry-point calls from process
start (each `Once.call_once` body atomic, as `std::sync::Once` guarantees),
at most one worker thread and at most one channel are ever created; once the
one-time guard has run there is exactly one of each, and any bootstrap call
made next leaves that same single worker and channel in place and observes
the stored sender. -/
theorem C8_single_worker_and_channel :
    ∀ ops : List Op,
      (run initialState ops).workers ≤ 1 ∧
      (run initialState ops).channels ≤ 1 ∧
      ((run initialState ops).onceDone = true →
        (run initialState ops).workers = 1 ∧
        (run initialState ops).channels = 1) ∧
      (ensure_worker_started (run initialState ops)).workers = 1 ∧
      (ensure_worker_started (run initialState ops)).channels = 1 ∧
      (ensure_worker_started (run initialState ops)).sender = some () := by
  intro ops
  have hg := good_run ops initialState good_initial
  have hg' := good_ensure _ hg
  have ho := ensure_onceDone (run initialState ops)
  obtain ⟨ht', _, _, _⟩ := hg'
  obtain ⟨hs', hw', hc'⟩ := ht' ho
  obtain ⟨ht, hf, _, _⟩ := hg
  refine ⟨?_, ?_, fun hb => ⟨(ht hb).2.1, (ht hb).2.2⟩, hw', hc', hs'⟩ <;>
    cases hb : (run initialState ops).onceDone
  · have := (hf hb).2.1
    omega
  · have := (ht hb).2.1
    omega
  · have := (hf hb).2.2
    omega
  · have := (ht hb).2.2
    omega

/-- C9: touching the globals only through the entry points, every reachable
state has the producer handle stored as soon as the bootstrap has run, so
`get_sender` always returns `some`; consequently the two fallback lines
"Logger worker already initialized." and "Logging system failed to
initialize." never appear on the error stream — those branches are
unreachable. -/
theorem C9_sender_always_available :
    ∀ ops : List Op,
      (get_sender (run initialState ops)).2 = some () ∧
      ((run initialState ops).onceDone = true →
        (run initialState ops).sender = some ()) ∧
      alreadyInitLine ∉ (run initialState ops).stderr ∧
      initFailedLine ∉ (run initialState ops).stderr := by
  intro ops
  have hg := good_run ops initialState good_initial
  have hg' := good_ensure _ hg
  have ho := ensure_onceDone (run initialState ops)
  obtain ⟨ht', _, _, _⟩ := hg'
  obtain ⟨ht, _, h4, h5⟩ := hg
  exact ⟨(ht' ho).1, fun hb => (ht hb).1, h4, h5⟩

end Nicepick
